import Mathlib

/-!
# Verification of the mcpman meta-tool layer

A shallow embedding of the mcpman MCP multiplexer (TypeScript sources under
`src/`).  JavaScript values that flow through the tool layer are modelled by
the inductive `JValue`; each embedded definition mirrors one source function
(the source file and symbol are named in its doc comment).  The theorems at
the end of the file settle the frozen claims about `$results` bookkeeping,
the `invoke`/`eval` handlers, result unwrapping and truncation, tool-proxy
attribute resolution and the type-definition cache.
-/

set_option maxHeartbeats 1000000
set_option maxRecDepth 10000

namespace Mcpman

/-- A JSON-ish JavaScript value as it travels through the tool layer
(`unknown` in the TypeScript sources).  Numbers are rationals so that the
`integer` check of the schema validator is meaningful. -/
inductive JValue where
  | null : JValue
  | bool : Bool → JValue
  | num : Rat → JValue
  | str : String → JValue
  | arr : List JValue → JValue
  | obj : List (String × JValue) → JValue
  deriving Repr, BEq

/-- Property read `v[key]` restricted to object own properties
(`undefined` is modelled as `none`). -/
def jGet (v : JValue) (key : String) : Option JValue :=
  match v with
  | .obj fields => fields.lookup key
  | _ => none

/-- JavaScript `key in v` for the object case (own properties; the sources
only apply it to content parts, which are plain JSON objects). -/
def jHasKey (v : JValue) (key : String) : Bool :=
  match v with
  | .obj fields => fields.any (fun f => f.1 == key)
  | _ => false

/-- Rendering of a number the way the embedding serialises it (integers
without a denominator). -/
def ratText (q : Rat) : String :=
  if q.den = 1 then toString q.num else toString q

mutual

/-- JavaScript `String(v)` on the values the embedding carries. -/
def jsString : JValue → String
  | .null => "null"
  | .bool b => if b then "true" else "false"
  | .num q => ratText q
  | .str s => s
  | .arr xs => String.intercalate "," (jsStringList xs)
  | .obj _ => "[object Object]"

def jsStringList : List JValue → List String
  | [] => []
  | v :: vs => jsString v :: jsStringList vs

end

/-- Minimal JSON string escaping used by the serialiser. -/
def escapeJson (s : String) : String :=
  s.foldl
    (fun acc c =>
      if c = '"' then acc ++ "\\\""
      else if c = '\\' then acc ++ "\\\\"
      else if c = '\n' then acc ++ "\\n"
      else acc.push c)
    ""

mutual

/-- `JSON.stringify(v)` (compact form). -/
def jsonStringify : JValue → String
  | .null => "null"
  | .bool b => if b then "true" else "false"
  | .num q => ratText q
  | .str s => "\"" ++ escapeJson s ++ "\""
  | .arr xs => "[" ++ String.intercalate "," (jsonStringifyList xs) ++ "]"
  | .obj fs => "\x7b" ++ String.intercalate "," (jsonStringifyFields fs) ++ "\x7d"

def jsonStringifyList : List JValue → List String
  | [] => []
  | v :: vs => jsonStringify v :: jsonStringifyList vs

def jsonStringifyFields : List (String × JValue) → List String
  | [] => []
  | (k, v) :: fs => ("\"" ++ escapeJson k ++ "\":" ++ jsonStringify v) :: jsonStringifyFields fs

end

/-- `JSON.stringify(v, null, 2)`: the sources only use the pretty form as an
opaque rendered string, so the embedding keeps the compact serialisation as
its rendering. -/
def jsonStringifyPretty (v : JValue) : String :=
  jsonStringify v

/-- Clamp a JavaScript `slice` index: negative indices count from the end,
then the result is clamped to `[0, n]`. -/
def sliceIdx (n : Nat) (i : Int) : Nat :=
  if i < 0 then (max ((n : Int) + i) 0).toNat else min i.toNat n

/-- JavaScript `text.slice(b, e)` (two-argument form, on characters). -/
def jsSlice2 (s : String) (b e : Int) : String :=
  let cs := s.toList
  let n := cs.length
  String.mk ((cs.take (sliceIdx n e)).drop (sliceIdx n b))

/-- JavaScript `text.slice(b)` (one-argument form). -/
def jsSlice1 (s : String) (b : Int) : String :=
  jsSlice2 s b (s.toList.length : Int)

/-- The truncation marker inserted by `truncateResult`
(`src/src/mcp/tools/eval.ts`, the template literal at line 13). -/
def truncationMsg (resultsIndex : Nat) : String :=
  "\n\n... (result truncated, see $results[" ++ toString resultsIndex ++ "] for full result) ...\n\n"

/-- `truncateResult` from `src/src/mcp/tools/eval.ts` lines 8-19.
`Math.floor` on the possibly negative `(maxLength - msg.length) / 2` is
floor division, and both `slice` calls use JavaScript index semantics. -/
def truncateResult (text : String) (resultsIndex : Nat) (maxLength : Nat := 250) : String :=
  if text.length ≤ maxLength then text
  else
    let msg := truncationMsg resultsIndex
    let sideLength : Int := Int.fdiv ((maxLength : Int) - (msg.length : Int)) 2
    let start := jsSlice2 text 0 sideLength
    let stop := jsSlice1 text (-sideLength)
    start ++ msg ++ stop

/-- Is a content part a text part (`item?.type === "text" && "text" in item`)? -/
def isTextItem (v : JValue) : Bool :=
  match jGet v "type" with
  | some (.str s) => (s == "text") && jHasKey v "text"
  | _ => false

/-- The `text` property of a text part. -/
def itemText (v : JValue) : JValue :=
  (jGet v "text").getD .null

/-- The per-item unwrapping used in the multi-part branch of
`unwrapToolResult`. -/
def unwrapItem (it : JValue) : JValue :=
  if isTextItem it then itemText it else it

/-- `unwrapToolResult` from `src/src/mcp/tools/invoke.ts` lines 49-65:
a single-text content array collapses to the text, a longer array keeps its
structure with text parts replaced by their text, anything else is kept. -/
def unwrapToolResult (toolResult : JValue) : JValue :=
  match toolResult with
  | .arr [x] => if isTextItem x then itemText x else .arr ([x].map unwrapItem)
  | .arr items => .arr (items.map unwrapItem)
  | v => v

/-- The rendering of one item in the array branch of `formatResultOutput`
(`item.text` for text parts, `JSON.stringify(item)` otherwise). -/
def formatResultItem (it : JValue) : String :=
  if isTextItem it then jsString (itemText it) else jsonStringify it

/-- `formatResultOutput` from `src/src/mcp/tools/eval.ts` lines 21-47. -/
def formatResultOutput (resultsIndex : Nat) (label : String) (rawResult : JValue) : String :=
  let resultText :=
    match rawResult with
    | .arr items => String.intercalate "\n" (items.map formatResultItem)
    | .obj fs => jsonStringifyPretty (.obj fs)
    | v => jsString v
  let resultText := truncateResult resultText resultsIndex
  "$results[" ++ toString resultsIndex ++ "] = // " ++ label ++ "\n" ++ resultText

/-! ## Schema validation (`jsonSchemaToZod`, `src/src/mcp/tools/invoke.ts` lines 219-271) -/

/-- The Zod schemas that `jsonSchemaToZod` can build. -/
inductive ZodT where
  | zobject (shape : List (String × ZodT))
  | zoptional (t : ZodT)
  | zarray : ZodT
  | zstring : ZodT
  | znumber : ZodT
  | zint : ZodT
  | zboolean : ZodT
  | znull : ZodT
  | zunknown : ZodT
  deriving Repr, BEq

/-- The `required` names of a schema object (`new Set(jsonSchema.required || [])`;
non-string entries can never match a property key, so they are dropped). -/
def requiredKeys (fields : List (String × JValue)) : List String :=
  match fields.lookup "required" with
  | some (.arr xs) => xs.filterMap (fun v => match v with | .str s => some s | _ => none)
  | _ => []

/-- The tail of `jsonSchemaToZod`'s `if` chain on `jsonSchema.type`. -/
def typeChain (ty : Option JValue) : ZodT :=
  match ty with
  | some (.str "array") => .zarray
  | some (.str "string") => .zstring
  | some (.str "number") => .znumber
  | some (.str "integer") => .zint
  | some (.str "boolean") => .zboolean
  | some (.str "null") => .znull
  | _ => .zunknown

mutual

/-- `jsonSchemaToZod` from `src/src/mcp/tools/invoke.ts` lines 219-271.
Non-object values and objects without a usable `type` collapse to
`z.unknown()`; an object `type` with a `properties` object builds a
`z.object` whose non-required fields are `.optional()`. -/
def jsonSchemaToZod (schema : JValue) : ZodT :=
  match schema with
  | .obj fields =>
    match fields.lookup "type" with
    | some (.str "object") =>
      match propsShape (requiredKeys fields) fields with
      | some shape => .zobject shape
      | none => typeChain (some (.str "object"))
    | ty => typeChain ty
  | _ => .zunknown

/-- Scan the schema fields for a `properties` object (the truthiness test
`jsonSchema.type === "object" && jsonSchema.properties`). -/
def propsShape (required : List String) : List (String × JValue) → Option (List (String × ZodT))
  | [] => none
  | (k, v) :: rest =>
    if k == "properties" then
      match v with
      | .obj props => some (shapeOf required props)
      | _ => none
    else propsShape required rest

/-- Build the `z.object` shape from `Object.entries(jsonSchema.properties)`. -/
def shapeOf (required : List String) : List (String × JValue) → List (String × ZodT)
  | [] => []
  | (k, v) :: rest =>
    let field := jsonSchemaToZod v
    (k, if required.contains k then field else .zoptional field) :: shapeOf required rest

end

/-- One entry of a `ZodError`'s `errors` list. -/
structure ZodIssue where
  path : List String
  message : String
  deriving Repr, BEq, DecidableEq

/-- The runtime type name Zod reports for a mismatched input. -/
def typeName (v : JValue) : String :=
  match v with
  | .null => "null"
  | .bool _ => "boolean"
  | .num _ => "number"
  | .str _ => "string"
  | .arr _ => "array"
  | .obj _ => "object"

def invalidType (expected : String) (v : JValue) : List ZodIssue :=
  [⟨[], "Expected " ++ expected ++ ", received " ++ typeName v⟩]

/-- Fold one present object field into the accumulated issues/output of a
`z.object` parse: a parsed value joins the stripped output, issues get the
key prefixed onto their path. -/
def zodFieldStep (k : String) (r : List ZodIssue × List (String × JValue)) :
    Except (List ZodIssue) JValue → List ZodIssue × List (String × JValue)
  | .ok w => (r.1, (k, w) :: r.2)
  | .error es => (es.map (fun e => ⟨k :: e.path, e.message⟩) ++ r.1, r.2)

/-- Whether a field schema was marked `.optional()`. -/
def zodIsOpt : ZodT → Bool
  | .zoptional _ => true
  | _ => false

mutual

/-- `zodSchema.parse(...)`: Zod semantics for the schemas `jsonSchemaToZod`
produces.  `z.object` rejects non-objects, reports `Required` for missing
non-optional keys, strips undeclared keys, and collects every issue;
`z.unknown` accepts anything. -/
def zodParse (t : ZodT) (v : JValue) : Except (List ZodIssue) JValue :=
  match t with
  | .zunknown => .ok v
  | .zoptional t1 => zodParse t1 v
  | .zstring => match v with | .str s => .ok (.str s) | w => .error (invalidType "string" w)
  | .znumber => match v with | .num q => .ok (.num q) | w => .error (invalidType "number" w)
  | .zint =>
    match v with
    | .num q => if q.den = 1 then .ok (.num q) else .error [⟨[], "Expected integer, received float"⟩]
    | w => .error (invalidType "integer" w)
  | .zboolean => match v with | .bool b => .ok (.bool b) | w => .error (invalidType "boolean" w)
  | .znull => match v with | .null => .ok .null | w => .error (invalidType "null" w)
  | .zarray => match v with | .arr xs => .ok (.arr xs) | w => .error (invalidType "array" w)
  | .zobject shape =>
    match v with
    | .obj fields =>
      match zodParseFields shape fields with
      | ([], out) => .ok (.obj out)
      | (issues, _) => .error issues
    | w => .error (invalidType "object" w)

/-- Parse the declared keys of a `z.object` shape against the input fields,
accumulating issues and the stripped output in shape order. -/
def zodParseFields (shape : List (String × ZodT)) (fields : List (String × JValue)) :
    List ZodIssue × List (String × JValue) :=
  match shape with
  | [] => ([], [])
  | (k, t) :: rest =>
    match fields.lookup k with
    | none =>
      if zodIsOpt t then zodParseFields rest fields
      else
        (⟨[k], "Required"⟩ :: (zodParseFields rest fields).1, (zodParseFields rest fields).2)
    | some v => zodFieldStep k (zodParseFields rest fields) (zodParse t v)

end

/-- The per-issue rendering in the invoke handler's `ZodError` branch
(`e.path.join(".") + ": " + e.message`). -/
def fmtZodIssue (e : ZodIssue) : String :=
  String.intercalate "." e.path ++ ": " ++ e.message

/-! ## The invoke handler (`src/src/mcp/tools/invoke.ts` lines 67-216) -/

/-- A tool descriptor as returned by an upstream `listTools`. -/
structure MTool where
  name : String
  inputSchema : Option JValue
  deriving Repr, BEq

/-- One element of the `calls` input of the invoke tool. -/
structure CallSpec where
  server : String
  tool : String
  parameters : Option JValue
  deriving Repr, BEq

/-- A record of one upstream `callTool` attempt (server, tool, arguments as
handed to `upstreamServerManager.callTool`). -/
structure UpCall where
  server : String
  tool : String
  args : Option JValue
  deriving Repr, BEq

/-- The upstream world the invoke handler talks to: the connected servers
with their `listTools` outcome, and the outcome of each possible
`callTool`.  Upstream failures are carried as error message strings. -/
structure UpEnv where
  servers : List (String × Except String (List MTool))
  callResult : String → String → Option JValue → Except String JValue

/-- `upstreamServerManager.getConnectedServers()`: the keys of the clients map. -/
def getConnectedServers (env : UpEnv) : List String :=
  env.servers.map (·.1)

/-- The catch-all error text of `invokeSingle`'s outer `try`/`catch`. -/
def errInvokeText (c : CallSpec) (msg : String) : String :=
  "Error invoking tool '" ++ c.tool ++ "' on server '" ++ c.server ++ "': " ++ msg

/-- The stage `invokeSingle` reaches before touching the `$results` log:
failure with a per-call error text (with or without a preceding upstream
call), or an upstream tool result ready to be stored. -/
inductive SingleOut where
  | errText (t : String)
  | errAfter (t : String) (u : UpCall)
  | okCall (toolResult : JValue) (u : UpCall)
  deriving Repr, BEq

/-- The tail of `invokeSingle`: the actual `callTool` and its outcome. -/
def classifyAfterCall (env : UpEnv) (c : CallSpec) (args : Option JValue) : SingleOut :=
  match env.callResult c.server c.tool args with
  | .error e => .errAfter (errInvokeText c e) ⟨c.server, c.tool, args⟩
  | .ok tr => .okCall tr ⟨c.server, c.tool, args⟩

/-- The branch structure of `invokeSingle` (`src/src/mcp/tools/invoke.ts`
lines 73-191) up to the `$results` append: unknown server, failed
`listTools`, unknown tool, parameter validation, then the upstream call. -/
def classifyCall (env : UpEnv) (c : CallSpec) : SingleOut :=
  match env.servers.lookup c.server with
  | none =>
    .errText ("Error: Server '" ++ c.server ++ "' not found. Available servers: " ++
      String.intercalate ", " (getConnectedServers env))
  | some (.error e) => .errText (errInvokeText c e)
  | some (.ok tools) =>
    match tools.find? (fun t => t.name == c.tool) with
    | none =>
      .errText ("Error: Tool '" ++ c.tool ++ "' not found in server '" ++ c.server ++
        "'. Available tools: " ++ String.intercalate ", " (tools.map (·.name)))
    | some tool =>
      match tool.inputSchema with
      | some schema =>
        match zodParse (jsonSchemaToZod schema) (c.parameters.getD (.obj [])) with
        | .error issues =>
          .errText ("Parameter validation error: " ++
            String.intercalate ", " (issues.map fmtZodIssue))
        | .ok validated => classifyAfterCall env c (some validated)
      | none => classifyAfterCall env c c.parameters

/-- `EvalRuntime.appendResult` (`src/eval/runtime.ts`, `src/unnamed/part_010`
lines 65-73): push onto `$results` and return the new index, or throw when
the VM context has not been initialized yet. -/
def appendResult (vmInit : Bool) (results : List JValue) (v : JValue) :
    Except String (Nat × List JValue) :=
  if vmInit then .ok (results.length, results ++ [v])
  else .error "VM context not initialized"

/-- One per-call record of the invoke handler (`success` plus the text
content). -/
structure SingleRec where
  success : Bool
  text : String
  deriving Repr, BEq, DecidableEq

/-- `invokeSingle`: classify the call, then on an upstream result unwrap it,
append it to `$results` (which may throw into the outer `catch`) and format
the success record.  Returns the record, the new `$results`, and the
upstream calls attempted. -/
def invokeSingle (env : UpEnv) (vmInit : Bool) (results : List JValue) (c : CallSpec) :
    SingleRec × List JValue × List UpCall :=
  match classifyCall env c with
  | .errText t => (⟨false, t⟩, results, [])
  | .errAfter t u => (⟨false, t⟩, results, [u])
  | .okCall tr u =>
    match appendResult vmInit results (unwrapToolResult tr) with
    | .error e => (⟨false, errInvokeText c e⟩, results, [u])
    | .ok (idx, results1) =>
      (⟨true, formatResultOutput idx (c.server ++ "." ++ c.tool) tr⟩, results1, [u])

/-- The sequential branch of `handleInvoke` (lines 199-211): run calls in
order, push each record, stop after the first failure. -/
def runSeqCalls (env : UpEnv) (vmInit : Bool) :
    List CallSpec → List JValue → List SingleRec × List JValue × List UpCall
  | [], results => ([], results, [])
  | c :: rest, results =>
    let r := invokeSingle env vmInit results c
    if r.1.success then
      let rr := runSeqCalls env vmInit rest r.2.1
      (r.1 :: rr.1, rr.2.1, r.2.2 ++ rr.2.2)
    else ([r.1], r.2.1, r.2.2)

/-- The parallel branch of `handleInvoke` (line 197): the calls settle in a
completion order `sched`; the side effects on `$results` happen in that
order, and each call's record is keyed by its input index. -/
def runParCalls (env : UpEnv) (vmInit : Bool) (calls : List CallSpec) :
    List Nat → List JValue → List (Nat × SingleRec) × List JValue × List UpCall
  | [], results => ([], results, [])
  | j :: rest, results =>
    match calls[j]? with
    | none => runParCalls env vmInit calls rest results
    | some c =>
      let r := invokeSingle env vmInit results c
      let rr := runParCalls env vmInit calls rest r.2.1
      ((j, r.1) :: rr.1, rr.2.1, r.2.2 ++ rr.2.2)

/-- `handleInvoke` (`src/src/mcp/tools/invoke.ts` lines 193-215).  In
parallel mode `Promise.all` returns the records in input order whatever the
completion order `sched` was; in sequential mode the loop halts on the
first failure. -/
def handleInvoke (env : UpEnv) (vmInit : Bool) (results : List JValue)
    (calls : List CallSpec) (parallel : Bool) (sched : List Nat) :
    List SingleRec × List JValue × List UpCall :=
  if parallel then
    let run := runParCalls env vmInit calls sched results
    ((List.range calls.length).map (fun i => (run.1.lookup i).getD ⟨false, ""⟩),
      run.2.1, run.2.2)
  else
    runSeqCalls env vmInit calls results

/-! ## The eval handler (`src/src/mcp/tools/eval.ts` lines 49-127,
`src/src/mcp/tools/validation.ts`) -/

/-- One TypeScript diagnostic as `validateTypeScript` sees it: whether it
carries a source file position, the zero-based line/column, and the
flattened message text. -/
structure Diag where
  hasFile : Bool
  line : Nat
  col : Nat
  msg : String
  deriving Repr, BEq, DecidableEq

/-- The per-diagnostic rendering of `validateTypeScript`
(`src/src/mcp/tools/validation.ts` lines 43-54): positions are reported
one-based. -/
def formatDiag (d : Diag) : String :=
  if d.hasFile then
    "Line " ++ toString (d.line + 1) ++ ", Column " ++ toString (d.col + 1) ++ ": " ++ d.msg
  else d.msg

/-- The result shape of `validateTypeScript` lines 41-60: `none` when the
program has no diagnostics, otherwise the newline-joined error text.  The
TypeScript compiler itself is external; the list of diagnostics it produces
for the checked code is the input here. -/
def validationErrors (diags : List Diag) : Option String :=
  if diags.isEmpty then none
  else some (String.intercalate "\n" (diags.map formatDiag))

/-- The value/captured-output pair returned by `EvalRuntime.eval`. -/
structure EvalOut where
  result : JValue
  output : String
  deriving Repr, BEq

/-- The combination step of the eval handler (`src/src/mcp/tools/eval.ts`
lines 98-110): with captured output, strings concatenate, objects are
JSON-serialised, everything else goes through `String(...)`. -/
def combineResult (r : EvalOut) : JValue :=
  if r.output ≠ "" then
    match r.result with
    | .str s => .str (s ++ "\n" ++ r.output)
    | .obj fs => .str (jsonStringify (.obj fs) ++ "\n" ++ r.output)
    | .arr xs => .str (jsonStringify (.arr xs) ++ "\n" ++ r.output)
    | v => .str (jsString v ++ "\n" ++ r.output)
  else r.result

/-- The `$results` log together with the lazily-created VM context flag
(`EvalRuntime.vmContext === null` iff `vmInit = false`). -/
structure RState where
  vmInit : Bool
  results : List JValue
  deriving Repr, BEq

/-- A meta-tool response as the downstream client sees it. -/
structure EvalResp where
  isError : Bool
  text : String
  deriving Repr, BEq, DecidableEq

/-- The eval tool handler (`src/src/mcp/tools/eval.ts` lines 75-125):
validate first — on any diagnostics return `isError:true` without touching
the runtime; otherwise execute (which lazily initializes the sandbox, also
when the script itself throws), combine, append, format.  A thrown
execution error escapes the handler and surfaces as an error response. -/
def evalHandler (diags : List Diag) (outcome : Except String EvalOut) (st : RState) :
    EvalResp × RState :=
  match validationErrors diags with
  | some errs =>
    ({ isError := true,
       text := "TypeScript validation failed. Please fix the errors in your code:\n\n" ++ errs },
      st)
  | none =>
    let st1 : RState := { st with vmInit := true }
    match outcome with
    | .error e => ({ isError := true, text := e }, st1)
    | .ok r =>
      let combined := combineResult r
      match appendResult st1.vmInit st1.results combined with
      | .error e => ({ isError := true, text := e }, st1)
      | .ok (idx, results1) =>
        ({ isError := false, text := formatResultOutput idx "eval" combined },
          { st1 with results := results1 })

/-- `CodeGenerator.generate` (the code-tool document of
`src/src/mcp/tools/open_ui.ts`, lines 353-371): when the downstream client
advertises the sampling capability, try MCP sampling first — note that a
successful sampling response is returned as the generated code with **no**
TypeScript validation of its own — and fall back to the Agent SDK path
(`generateCodeWithAgentSDK`, which validates each `set_code` candidate)
when sampling fails or the capability is absent.  The two generation
channels are external (an MCP `createMessage` round trip and the Agent SDK
subprocess), so their outcomes are inputs here; this function embeds the
fallback control flow.  Generation never touches the eval runtime. -/
def codeGenerate (supportsSampling : Bool) (samplingOutcome agentOutcome : Except String String) :
    Except String String :=
  if supportsSampling then
    match samplingOutcome with
    | .ok code => .ok code
    | .error _ => agentOutcome
  else agentOutcome

/-- The `code` tool handler (`registerCodeTool` in the code-tool document of
`src/src/mcp/tools/open_ui.ts`, lines 403-458): generate code (any throw —
sampling and agent both failing, invalid type text, generation exhausted —
is caught and returned as `isError:true` with the state untouched), execute
it in the runtime (which lazily initializes the VM context, also when the
script itself throws), combine result and captured output exactly as the
eval handler does, append once to `$results`, and format the response with
the generated code and the execution result. -/
def codeHandler (genOutcome : Except String String) (outcome : Except String EvalOut)
    (st : RState) : EvalResp × RState :=
  match genOutcome with
  | .error e => ({ isError := true, text := "Error: " ++ e }, st)
  | .ok code =>
    let st1 : RState := { st with vmInit := true }
    match outcome with
    | .error e => ({ isError := true, text := "Error: " ++ e }, st1)
    | .ok r =>
      let combined := combineResult r
      match appendResult st1.vmInit st1.results combined with
      | .error e => ({ isError := true, text := "Error: " ++ e }, st1)
      | .ok (idx, results1) =>
        ({ isError := false,
           text := "\n// Generated code:\n" ++ code ++ "\n\n// Execution result:\n" ++
             formatResultOutput idx "code" combined },
          { st1 with results := results1 })

/-! ## Sequences of meta-tool calls -/

/-- One meta-tool call, carrying the outcomes of its external dependencies:
the TypeScript diagnostics and the sandbox execution for `eval`; the
client's sampling capability, the two generation channels' outcomes and the
execution for `code`; and the calls, mode and completion schedule for
`invoke`. -/
inductive MetaCall where
  | evalCall (diags : List Diag) (outcome : Except String EvalOut)
  | codeCall (supportsSampling : Bool) (samplingOutcome agentOutcome : Except String String)
      (outcome : Except String EvalOut)
  | invokeCall (calls : List CallSpec) (parallel : Bool) (sched : List Nat)

/-- The success/text record of an eval- or code-style response. -/
def evalRec (r : EvalResp) : SingleRec :=
  ⟨!r.isError, r.text⟩

/-- Run one meta-tool call against the runtime state. -/
def runMeta (env : UpEnv) (st : RState) : MetaCall → List SingleRec × RState
  | .evalCall diags outcome =>
    let r := evalHandler diags outcome st
    ([evalRec r.1], r.2)
  | .codeCall supportsSampling samplingOutcome agentOutcome outcome =>
    let r := codeHandler (codeGenerate supportsSampling samplingOutcome agentOutcome) outcome st
    ([evalRec r.1], r.2)
  | .invokeCall calls parallel sched =>
    let run := handleInvoke env st.vmInit st.results calls parallel sched
    (run.1, { st with results := run.2.1 })

/-- Run a sequence of meta-tool calls, collecting each call's records. -/
def runMetas (env : UpEnv) : List MetaCall → RState → List (List SingleRec) × RState
  | [], st => ([], st)
  | m :: ms, st =>
    let r := runMeta env st m
    let rr := runMetas env ms r.2
    (r.1 :: rr.1, rr.2)

/-- The number of per-call successes in one response. -/
def succCount (recs : List SingleRec) : Nat :=
  recs.countP (·.success)

/-- Total successes across a sequence of responses. -/
def totalSucc (resps : List (List SingleRec)) : Nat :=
  (resps.map succCount).sum

/-- A parallel invoke's completion schedule is a permutation of its call
indices; sequential calls and the other meta-tools have no schedule. -/
def schedOK : MetaCall → Prop
  | .invokeCall calls true sched => sched.Perm (List.range calls.length)
  | _ => True

/-! ## Tool-proxy attribute resolution (`src/src/eval/proxy.ts` lines 199-210) -/

/-- The property names a plain object literal (the proxy target
`toolFunctions`) inherits from `Object.prototype`; `prop in target` walks
the prototype chain, so these also pass the trap's membership test. -/
def objectPrototypeKeys : List String :=
  ["constructor", "hasOwnProperty", "isPrototypeOf", "propertyIsEnumerable",
   "toLocaleString", "toString", "valueOf",
   "__defineGetter__", "__defineSetter__", "__lookupGetter__", "__lookupSetter__",
   "__proto__"]

/-- The `get` trap of `createToolProxy`'s `Proxy`
(`src/src/eval/proxy.ts` lines 199-210): a string property for which
`prop in target` is false — neither a stored tool name nor a name inherited
from `Object.prototype` — throws with the available-tool list; otherwise
`Reflect.get` returns the stored tool for an own key (`some p`) and the
inherited non-tool member for a prototype-chain key (`none`). -/
def toolProxyGet (serverName : String) (toolNames : List String) (p : String) :
    Except String (Option String) :=
  if p ∈ toolNames ∨ p ∈ objectPrototypeKeys then
    .ok (if p ∈ toolNames then some p else none)
  else
    .error ("Tool '" ++ p ++ "' not found in server '" ++ serverName ++
      "'. Available tools: " ++ String.intercalate ", " toolNames)

/-- Modelled from the spec (§4.B): rewrite a camelCase name inserting `sep`
before each uppercase letter (lowered); used for the `kebab`, `snake` and
`space` variants of `candidates(s)`. -/
def uncamelWith (sep : Char) (s : String) : String :=
  String.mk (s.toList.foldl (fun acc c => if c.isUpper then acc ++ [sep, c.toLower] else acc ++ [c]) [])

/-- Modelled from the spec: `snake(s)`. -/
def snakeName (s : String) : String :=
  uncamelWith '_' s

/-- Modelled from the spec: `kebab(s)`. -/
def kebabName (s : String) : String :=
  uncamelWith '-' s

/-- Modelled from the spec: `space(s)`. -/
def spaceName (s : String) : String :=
  uncamelWith ' ' s

/-- Modelled from the spec: a requested name counts as camelCase when it
contains an uppercase letter. -/
def isCamelName (s : String) : Bool :=
  s.toList.any (·.isUpper)

/-- Modelled from the spec: `candidates(s) = { s, kebab(s), snake(s), space(s) }`. -/
def nameCandidates (p : String) : List String :=
  [p, kebabName p, snakeName p, spaceName p]

/-- Modelled from the spec (§4.B): the three-step attribute resolution the
claim describes — exact hit, then camelCase candidates, then the reverse
`snake(t) == p` scan; `none` means `ToolNotFound`. -/
def specToolResolve (toolNames : List String) (p : String) : Option String :=
  if p ∈ toolNames then some p
  else
    match (if isCamelName p then (nameCandidates p).find? (· ∈ toolNames) else none) with
    | some c => some c
    | none => toolNames.find? (fun t => snakeName t == p)

/-! ## The type-definition cache (`ToolManager.getTypeDefinitions`,
`src/src/mcp/client-manager.ts` lines 225-327) -/

/-- Insertion into a lexicographically sorted list of strings. -/
def insertSorted (x : String) : List String → List String
  | [] => [x]
  | y :: ys => if x ≤ y then x :: y :: ys else y :: insertSorted x ys

/-- `Array.prototype.sort()` on strings (lexicographic). -/
def sortStrings : List String → List String
  | [] => []
  | x :: xs => insertSorted x (sortStrings xs)

/-- `JSON.stringify(tool.inputSchema)` inside the signature (an absent
schema stringifies to the text `undefined` in the template literal). -/
def schemaSigText : Option JValue → String
  | none => "undefined"
  | some v => jsonStringify v

/-- `ToolManager.getToolsSignature` (lines 238-249): the sorted, `|`-joined
`server.tool:inputSchemaJSON` entries over all upstream tools. -/
def toolsSignature (toolMap : List (String × List MTool)) : String :=
  let sigs := (toolMap.map (fun p =>
    p.2.map (fun t => p.1 ++ "." ++ t.name ++ ":" ++ schemaSigText t.inputSchema))).flatten
  String.intercalate "|" (sortStrings sigs)

/-- The cache fields of `ToolManager` relevant to `getTypeDefinitions`. -/
structure TMState where
  cachedTypes : Option String
  lastToolsSignature : Option String
  deriving Repr, BEq, DecidableEq

/-- JavaScript truthiness of the `string | null` cache field. -/
def truthyCache : Option String → Bool
  | some c => !(c == "")
  | none => false

/-- `ToolManager.getTypeDefinitions` (lines 256-327).  `gen` stands for the
body that renders type text from a tool map (it delegates to the external
`json-schema-to-typescript` compiler).  The unfiltered call is served from
the cache when the signature matches; only unfiltered calls update
`lastToolsSignature` and `cachedTypes`; a `servers` filter recomputes over
the filtered map. -/
def getTypeDefinitions (gen : List (String × List MTool) → String)
    (servers : Option (List String)) (toolMap : List (String × List MTool))
    (st : TMState) : String × TMState :=
  let currentSignature := toolsSignature toolMap
  if servers.isNone && truthyCache st.cachedTypes &&
      (st.lastToolsSignature == some currentSignature) then
    (st.cachedTypes.getD "", st)
  else
    let st1 := if servers.isNone then { st with lastToolsSignature := some currentSignature } else st
    let filtered :=
      match servers with
      | some l => toolMap.filter (fun p => l.contains p.1)
      | none => toolMap
    let types := gen filtered
    let st2 := if servers.isNone then { st1 with cachedTypes := some types } else st1
    (types, st2)

/-! ## Derived views of `invokeSingle`

`classifyCall` never reads the `$results` log, so the success of a call, the
value it appends and the upstream calls it makes depend only on the
environment, the call and the VM-context flag.  The following definitions
name those views; `invokeSingle` is proved equal to them below. -/

/-- Whether a call produces a per-call success record: the upstream call
must succeed and the VM context must exist for the append. -/
def classifyOk (env : UpEnv) (vmInit : Bool) (c : CallSpec) : Bool :=
  match classifyCall env c with
  | .okCall _ _ => vmInit
  | _ => false

/-- The entries a call appends to `$results` (one on success, none
otherwise). -/
def appendOf (env : UpEnv) (vmInit : Bool) (c : CallSpec) : List JValue :=
  match classifyCall env c with
  | .okCall tr _ => if vmInit then [unwrapToolResult tr] else []
  | _ => []

/-- The record a call produces when its success record would be stored at
index `idx`. -/
def recAt (env : UpEnv) (vmInit : Bool) (idx : Nat) (c : CallSpec) : SingleRec :=
  match classifyCall env c with
  | .errText t => ⟨false, t⟩
  | .errAfter t _ => ⟨false, t⟩
  | .okCall tr _ =>
    if vmInit then ⟨true, formatResultOutput idx (c.server ++ "." ++ c.tool) tr⟩
    else ⟨false, errInvokeText c "VM context not initialized"⟩

/-- The upstream calls a single invoke call attempts. -/
def traceOf (env : UpEnv) (c : CallSpec) : List UpCall :=
  match classifyCall env c with
  | .errText _ => []
  | .errAfter _ u => [u]
  | .okCall _ u => [u]

/-- `classifyOk` lifted to an index into the `calls` array. -/
def okIdx (env : UpEnv) (vmInit : Bool) (calls : List CallSpec) (j : Nat) : Bool :=
  match calls[j]? with
  | some c => classifyOk env vmInit c
  | none => false

/-! ## Concrete sample data (used by the witness theorems) -/

/-- A sample upstream tool with an object input schema. -/
def sampleTool : MTool :=
  ⟨"list_directory",
    some (.obj [("type", .str "object"),
      ("properties", .obj [("path", .obj [("type", .str "string")])]),
      ("required", .arr [.str "path"])])⟩

/-- A sample upstream environment: one server whose tool calls return a
single-text content array. -/
def sampleEnv : UpEnv :=
  ⟨[("filesystem", .ok [sampleTool])],
    fun _ _ _ => .ok (.arr [.obj [("type", .str "text"), ("text", .str "a.txt")]])⟩

/-- A sample call whose parameters carry an undeclared property. -/
def sampleCall : CallSpec :=
  ⟨"filesystem", "list_directory", some (.obj [("path", .str "."), ("verbose", .bool true)])⟩

/-- A call naming an unknown server. -/
def badCall : CallSpec :=
  ⟨"nope", "x", none⟩

/-- A sample meta-call sequence: a successful eval, a parallel invoke whose
two calls complete out of input order, a code call whose sampled code
executes, and a failing sequential invoke. -/
def sampleMetas : List MetaCall :=
  [.evalCall [] (.ok ⟨.str "hi", ""⟩),
   .invokeCall [sampleCall, badCall] true [1, 0],
   .codeCall true (.ok "async () => 1") (.error "unused") (.ok ⟨.num 1, ""⟩),
   .invokeCall [badCall] false []]

/-! ## Helper lemmas -/

theorem invokeSingle_eq (env : UpEnv) (v : Bool) (rs : List JValue) (c : CallSpec) :
    invokeSingle env v rs c = (recAt env v rs.length c, rs ++ appendOf env v c, traceOf env c) := by
  unfold invokeSingle recAt appendOf traceOf appendResult
  cases classifyCall env c with
  | errText t => simp
  | errAfter t u => simp
  | okCall tr u => cases v <;> simp

theorem recAt_success (env : UpEnv) (v : Bool) (idx : Nat) (c : CallSpec) :
    (recAt env v idx c).success = classifyOk env v c := by
  unfold recAt classifyOk
  cases classifyCall env c with
  | errText t => rfl
  | errAfter t u => rfl
  | okCall tr u => cases v <;> rfl

theorem appendOf_length (env : UpEnv) (v : Bool) (c : CallSpec) :
    (appendOf env v c).length = if classifyOk env v c then 1 else 0 := by
  unfold appendOf classifyOk
  cases classifyCall env c with
  | errText t => rfl
  | errAfter t u => rfl
  | okCall tr u => cases v <;> rfl

theorem appendOf_vmFalse (env : UpEnv) (c : CallSpec) :
    appendOf env false c = [] := by
  unfold appendOf
  cases classifyCall env c <;> simp

theorem runSeqCalls_length (env : UpEnv) (v : Bool) :
    ∀ (calls : List CallSpec) (rs : List JValue),
      (runSeqCalls env v calls rs).2.1.length =
        rs.length + succCount (runSeqCalls env v calls rs).1 := by
  intro calls
  induction calls with
  | nil => intro rs; simp [runSeqCalls, succCount]
  | cons c rest ih =>
    intro rs
    rw [runSeqCalls]
    by_cases h : classifyOk env v c
    · simp only [invokeSingle_eq, recAt_success, h, if_true]
      simp only [succCount, List.countP_cons, recAt_success, h]
      have := ih (rs ++ appendOf env v c)
      simp only [succCount] at this
      simp [this, appendOf_length, h]
      omega
    · simp only [invokeSingle_eq, recAt_success, h, if_false]
      simp [succCount, recAt_success, h, appendOf_length]

theorem runSeqCalls_halt (env : UpEnv) (v : Bool) :
    ∀ (pre : List CallSpec) (bad : CallSpec) (post : List CallSpec) (rs : List JValue),
      (∀ c ∈ pre, classifyOk env v c = true) → classifyOk env v bad = false →
      runSeqCalls env v (pre ++ bad :: post) rs = runSeqCalls env v (pre ++ [bad]) rs := by
  intro pre
  induction pre with
  | nil =>
    intro bad post rs _ hbad
    simp only [List.nil_append]
    rw [runSeqCalls, runSeqCalls]
    simp [invokeSingle_eq, recAt_success, hbad]
  | cons p pre ih =>
    intro bad post rs hpre hbad
    have hp : classifyOk env v p = true := hpre p (by simp)
    simp only [List.cons_append]
    rw [runSeqCalls, runSeqCalls]
    simp only [invokeSingle_eq, recAt_success, hp, if_true]
    rw [ih bad post _ (fun c hc => hpre c (by simp [hc])) hbad]

theorem runSeqCalls_success_map (env : UpEnv) (v : Bool) :
    ∀ (calls : List CallSpec) (rs : List JValue),
      (∀ c ∈ calls, classifyOk env v c = true) →
      (runSeqCalls env v calls rs).1.map (·.success) = List.replicate calls.length true := by
  intro calls
  induction calls with
  | nil => intro rs _; simp [runSeqCalls]
  | cons c rest ih =>
    intro rs h
    have hc : classifyOk env v c = true := h c (by simp)
    rw [runSeqCalls]
    simp only [invokeSingle_eq, recAt_success, hc, if_true]
    simp [recAt_success, hc, ih _ (fun d hd => h d (by simp [hd])), List.replicate_succ]

theorem runSeqCalls_err_map (env : UpEnv) (v : Bool) :
    ∀ (pre : List CallSpec) (bad : CallSpec) (rs : List JValue),
      (∀ c ∈ pre, classifyOk env v c = true) → classifyOk env v bad = false →
      (runSeqCalls env v (pre ++ [bad]) rs).1.map (·.success) =
        List.replicate pre.length true ++ [false] := by
  intro pre
  induction pre with
  | nil =>
    intro bad rs _ hbad
    simp only [List.nil_append]
    rw [runSeqCalls]
    simp [invokeSingle_eq, recAt_success, hbad]
  | cons p pre ih =>
    intro bad rs hpre hbad
    have hp : classifyOk env v p = true := hpre p (by simp)
    simp only [List.cons_append]
    rw [runSeqCalls]
    simp only [invokeSingle_eq, recAt_success, hp, if_true]
    simp [recAt_success, hp, ih bad _ (fun c hc => hpre c (by simp [hc])) hbad,
      List.replicate_succ]

theorem runSeqCalls_vmFalse (env : UpEnv) :
    ∀ (calls : List CallSpec) (rs : List JValue),
      (runSeqCalls env false calls rs).2.1 = rs := by
  intro calls
  induction calls with
  | nil => intro rs; simp [runSeqCalls]
  | cons c rest ih =>
    intro rs
    rw [runSeqCalls]
    by_cases h : classifyOk env false c
    · simp only [invokeSingle_eq, recAt_success, h, if_true]
      simp [appendOf_vmFalse, ih]
    · simp [invokeSingle_eq, recAt_success, h, appendOf_vmFalse]

theorem runParCalls_length (env : UpEnv) (v : Bool) (calls : List CallSpec) :
    ∀ (sched : List Nat) (rs : List JValue),
      (runParCalls env v calls sched rs).2.1.length =
        rs.length + sched.countP (okIdx env v calls) := by
  intro sched
  induction sched with
  | nil => intro rs; simp [runParCalls]
  | cons j rest ih =>
    intro rs
    rw [runParCalls]
    cases hj : calls[j]? with
    | none => simp [ih, List.countP_cons, okIdx, hj]
    | some c =>
      simp only [invokeSingle_eq]
      rw [ih]
      simp [List.countP_cons, okIdx, hj, appendOf_length]
      by_cases h : classifyOk env v c
      · simp [h]
        omega
      · simp [h]

theorem runParCalls_lookup (env : UpEnv) (v : Bool) (calls : List CallSpec) :
    ∀ (sched : List Nat) (rs : List JValue) (j : Nat) (c : CallSpec),
      calls[j]? = some c → j ∈ sched →
      ∃ idx, (runParCalls env v calls sched rs).1.lookup j = some (recAt env v idx c) := by
  intro sched
  induction sched with
  | nil => intro rs j c _ hj; simp at hj
  | cons j0 rest ih =>
    intro rs j c hc hj
    rw [runParCalls]
    cases hj0 : calls[j0]? with
    | none =>
      have hne : j ≠ j0 := by
        intro he; rw [he, hj0] at hc; exact Option.noConfusion hc
      have : j ∈ rest := by
        rcases List.mem_cons.mp hj with h | h
        · exact absurd h hne
        · exact h
      exact ih rs j c hc this
    | some c0 =>
      by_cases he : j = j0
      · subst he
        rw [hj0] at hc
        injection hc with hcc
        subst hcc
        refine ⟨rs.length, ?_⟩
        simp [invokeSingle_eq, List.lookup]
      · have hmem : j ∈ rest := by
          rcases List.mem_cons.mp hj with h | h
          · exact absurd h he
          · exact h
        obtain ⟨idx, hidx⟩ := ih ((rs ++ appendOf env v c0)) j c hc hmem
        refine ⟨idx, ?_⟩
        simp only [invokeSingle_eq]
        rw [List.lookup]
        have : (j == j0) = false := by simp [he]
        rw [this]
        exact hidx

theorem runParCalls_vmFalse (env : UpEnv) (calls : List CallSpec) :
    ∀ (sched : List Nat) (rs : List JValue),
      (runParCalls env false calls sched rs).2.1 = rs := by
  intro sched
  induction sched with
  | nil => intro rs; simp [runParCalls]
  | cons j rest ih =>
    intro rs
    rw [runParCalls]
    cases hj : calls[j]? with
    | none => simp [ih]
    | some c => simp [invokeSingle_eq, appendOf_vmFalse, ih]

theorem handleInvoke_par_record (env : UpEnv) (v : Bool) (rs : List JValue)
    (calls : List CallSpec) (sched : List Nat)
    (hperm : sched.Perm (List.range calls.length)) :
    ∀ (i : Nat) (c : CallSpec), calls[i]? = some c →
      ∃ idx, (handleInvoke env v rs calls true sched).1[i]? = some (recAt env v idx c) := by
  intro i c hc
  have hi : i < calls.length := by
    by_contra hn
    rw [List.getElem?_eq_none (by omega)] at hc
    exact Option.noConfusion hc
  have hmem : i ∈ sched := hperm.mem_iff.mpr (List.mem_range.mpr hi)
  obtain ⟨idx, hidx⟩ := runParCalls_lookup env v calls sched rs i c hc hmem
  refine ⟨idx, ?_⟩
  show ((List.range calls.length).map
    (fun i => ((runParCalls env v calls sched rs).1.lookup i).getD ⟨false, ""⟩))[i]? = _
  rw [List.getElem?_map, List.getElem?_range hi]
  simp [hidx]

theorem handleInvoke_par_countP (env : UpEnv) (v : Bool) (rs : List JValue)
    (calls : List CallSpec) (sched : List Nat)
    (hperm : sched.Perm (List.range calls.length)) :
    (handleInvoke env v rs calls true sched).1.countP (·.success) =
      sched.countP (okIdx env v calls) := by
  show ((List.range calls.length).map
      (fun i => ((runParCalls env v calls sched rs).1.lookup i).getD ⟨false, ""⟩)).countP
      (·.success) = _
  rw [List.countP_map]
  rw [List.countP_congr (q := okIdx env v calls) ?_]
  · exact (hperm.countP_eq (okIdx env v calls)).symm
  · intro i hi
    have hlt := List.mem_range.mp hi
    have hc := List.getElem?_eq_getElem hlt
    obtain ⟨idx, hidx⟩ := runParCalls_lookup env v calls sched rs i _ hc
      (hperm.mem_iff.mpr hi)
    simp only [Function.comp_apply, hidx, Option.getD_some, recAt_success]
    simp [okIdx, hc]

theorem handleInvoke_length (env : UpEnv) (v : Bool) (rs : List JValue)
    (calls : List CallSpec) (parallel : Bool) (sched : List Nat)
    (h : parallel = true → sched.Perm (List.range calls.length)) :
    (handleInvoke env v rs calls parallel sched).2.1.length =
      rs.length + succCount (handleInvoke env v rs calls parallel sched).1 := by
  cases parallel with
  | false => exact runSeqCalls_length env v calls rs
  | true =>
    have hperm := h rfl
    have h2 : (handleInvoke env v rs calls true sched).2.1 =
        (runParCalls env v calls sched rs).2.1 := rfl
    rw [h2, runParCalls_length]
    unfold succCount
    rw [handleInvoke_par_countP env v rs calls sched hperm]

theorem handleInvoke_vmFalse (env : UpEnv) (rs : List JValue)
    (calls : List CallSpec) (parallel : Bool) (sched : List Nat) :
    (handleInvoke env false rs calls parallel sched).2.1 = rs := by
  cases parallel with
  | false => exact runSeqCalls_vmFalse env calls rs
  | true =>
    have h2 : (handleInvoke env false rs calls true sched).2.1 =
        (runParCalls env false calls sched rs).2.1 := rfl
    rw [h2, runParCalls_vmFalse]

theorem runMeta_length (env : UpEnv) (st : RState) (m : MetaCall) (h : schedOK m) :
    (runMeta env st m).2.results.length =
      st.results.length + succCount (runMeta env st m).1 := by
  cases m with
  | evalCall diags outcome =>
    unfold runMeta evalHandler
    cases hv : validationErrors diags with
    | some errs => simp [hv, succCount, evalRec]
    | none =>
      cases outcome with
      | error e => simp [hv, succCount, evalRec]
      | ok r => simp [hv, appendResult, succCount, evalRec]
  | codeCall supportsSampling samplingOutcome agentOutcome outcome =>
    unfold runMeta codeHandler
    cases hg : codeGenerate supportsSampling samplingOutcome agentOutcome with
    | error e => simp [hg, succCount, evalRec]
    | ok code =>
      cases outcome with
      | error e => simp [hg, succCount, evalRec]
      | ok r => simp [hg, appendResult, succCount, evalRec]
  | invokeCall calls parallel sched =>
    cases parallel with
    | false =>
      exact handleInvoke_length env st.vmInit st.results calls false sched
        (fun hp => Bool.noConfusion hp)
    | true =>
      exact handleInvoke_length env st.vmInit st.results calls true sched (fun _ => h)

/-- **C1.** For any sequence of meta-tool calls (`eval`, `code`, `invoke` in
either mode, each parallel invoke completing in some permutation of its call
indices), the length of the `$results` log equals the number of successful
`eval`/`code` executions plus the number of per-call successes across all
`invoke` calls: every success path appends exactly one entry via
`appendResult` and no error path appends. -/
theorem results_log_length_invariant :
    ∀ (env : UpEnv) (ms : List MetaCall) (st : RState),
      (∀ m ∈ ms, schedOK m) →
      ((runMetas env ms st).2).results.length =
        st.results.length + totalSucc (runMetas env ms st).1 := by
  intro env ms
  induction ms with
  | nil => intro st _; simp [runMetas, totalSucc]
  | cons m ms ih =>
    intro st h
    rw [runMetas]
    simp only [totalSucc, List.map_cons, List.sum_cons]
    have h1 := runMeta_length env st m (h m (by simp))
    have h2 := ih (runMeta env st m).2 (fun m1 hm1 => h m1 (by simp [hm1]))
    simp only [totalSucc] at h2
    omega

theorem results_log_length_invariant_witness :
    ((runMetas sampleEnv sampleMetas ⟨false, []⟩).2).results.length =
      (⟨false, []⟩ : RState).results.length +
        totalSucc (runMetas sampleEnv sampleMetas ⟨false, []⟩).1 :=
  results_log_length_invariant sampleEnv sampleMetas ⟨false, []⟩ (by
    intro m hm
    fin_cases hm
    · trivial
    · show ([1, 0] : List Nat).Perm (List.range 2)
      decide
    · trivial
    · trivial)

/-- **C2.** For every invoke call with `parallel:false`, if the `i`-th call
is the first to produce a per-call error, the returned content array has
exactly `i+1` entries — the `i` successful records in input order followed
by that error record — and no call after index `i` is attempted (the run
coincides with the run on the truncated call list, upstream trace
included); if no call fails, content has one success record per call in
input order. -/
theorem invoke_sequential_first_error :
    (∀ (env : UpEnv) (v : Bool) (rs : List JValue) (sched : List Nat)
        (pre : List CallSpec) (bad : CallSpec) (post : List CallSpec),
      (∀ c ∈ pre, classifyOk env v c = true) → classifyOk env v bad = false →
      handleInvoke env v rs (pre ++ bad :: post) false sched =
        handleInvoke env v rs (pre ++ [bad]) false sched ∧
      (handleInvoke env v rs (pre ++ bad :: post) false sched).1.map (·.success) =
        List.replicate pre.length true ++ [false] ∧
      (handleInvoke env v rs (pre ++ bad :: post) false sched).1.length = pre.length + 1) ∧
    (∀ (env : UpEnv) (v : Bool) (rs : List JValue) (sched : List Nat)
        (calls : List CallSpec),
      (∀ c ∈ calls, classifyOk env v c = true) →
      (handleInvoke env v rs calls false sched).1.map (·.success) =
        List.replicate calls.length true ∧
      (handleInvoke env v rs calls false sched).1.length = calls.length) := by
  constructor
  · intro env v rs sched pre bad post hpre hbad
    have he : ∀ cs, handleInvoke env v rs cs false sched = runSeqCalls env v cs rs :=
      fun cs => rfl
    have hmap := runSeqCalls_err_map env v pre bad rs hpre hbad
    have hhalt := runSeqCalls_halt env v pre bad post rs hpre hbad
    refine ⟨by rw [he, he, hhalt], ?_, ?_⟩
    · rw [he, hhalt, hmap]
    · have := congrArg List.length (by rw [he, hhalt, hmap] :
        (handleInvoke env v rs (pre ++ bad :: post) false sched).1.map (·.success) =
          List.replicate pre.length true ++ [false])
      simpa using this
  · intro env v rs sched calls hok
    have he : handleInvoke env v rs calls false sched = runSeqCalls env v calls rs := rfl
    have hmap := runSeqCalls_success_map env v calls rs hok
    refine ⟨by rw [he, hmap], ?_⟩
    have := congrArg List.length (by rw [he, hmap] :
      (handleInvoke env v rs calls false sched).1.map (·.success) =
        List.replicate calls.length true)
    simpa using this

theorem invoke_sequential_first_error_witness :
    handleInvoke sampleEnv true [] ([sampleCall] ++ badCall :: [sampleCall]) false [] =
      handleInvoke sampleEnv true [] ([sampleCall] ++ [badCall]) false [] ∧
    (handleInvoke sampleEnv true [] ([sampleCall] ++ badCall :: [sampleCall]) false []).1.map
      (·.success) = List.replicate 1 true ++ [false] ∧
    (handleInvoke sampleEnv true [] ([sampleCall] ++ badCall :: [sampleCall]) false []).1.length =
      1 + 1 :=
  invoke_sequential_first_error.1 sampleEnv true [] [] [sampleCall] badCall [sampleCall]
    (by intro c hc; rw [List.mem_singleton] at hc; subst hc; rfl) rfl

/-- **C3.** For every invoke call with `parallel:true` whose completion
schedule is a permutation of the call indices, the returned content array
has exactly one entry per element of `calls`, and the entry at index `i` is
the record produced for `calls[i]` (error records included; a success
record's stored `$results` index depends on the completion order, nothing
else does). -/
theorem invoke_parallel_input_order :
    ∀ (env : UpEnv) (v : Bool) (rs : List JValue) (calls : List CallSpec) (sched : List Nat),
      sched.Perm (List.range calls.length) →
      (handleInvoke env v rs calls true sched).1.length = calls.length ∧
      (∀ (i : Nat) (c : CallSpec), calls[i]? = some c →
        ∃ idx, (handleInvoke env v rs calls true sched).1[i]? = some (recAt env v idx c)) := by
  intro env v rs calls sched hperm
  constructor
  · show ((List.range calls.length).map
      (fun i => ((runParCalls env v calls sched rs).1.lookup i).getD ⟨false, ""⟩)).length = _
    simp
  · exact handleInvoke_par_record env v rs calls sched hperm

theorem invoke_parallel_input_order_witness :
    (handleInvoke sampleEnv true [] [sampleCall, badCall] true [1, 0]).1.length =
      [sampleCall, badCall].length ∧
    (∀ (i : Nat) (c : CallSpec), [sampleCall, badCall][i]? = some c →
      ∃ idx, (handleInvoke sampleEnv true [] [sampleCall, badCall] true [1, 0]).1[i]? =
        some (recAt sampleEnv true idx c)) :=
  invoke_parallel_input_order sampleEnv true [] [sampleCall, badCall] [1, 0] (by decide)

theorem zodFieldStep_snd (k : String) (r : List ZodIssue × List (String × JValue))
    (x : Except (List ZodIssue) JValue) :
    (zodFieldStep k r x).2 = r.2 ∨ ∃ w, (zodFieldStep k r x).2 = (k, w) :: r.2 := by
  cases x with
  | ok w => exact Or.inr ⟨w, rfl⟩
  | error es => exact Or.inl rfl

theorem zodParseFields_cons_snd (k : String) (t : ZodT) (rest : List (String × ZodT))
    (fields : List (String × JValue)) :
    (zodParseFields ((k, t) :: rest) fields).2 = (zodParseFields rest fields).2 ∨
    ∃ w, (zodParseFields ((k, t) :: rest) fields).2 =
      (k, w) :: (zodParseFields rest fields).2 := by
  cases hl : fields.lookup k with
  | none =>
    simp only [zodParseFields, hl]
    by_cases ho : zodIsOpt t <;> simp [ho]
  | some v =>
    simp only [zodParseFields, hl]
    exact zodFieldStep_snd k (zodParseFields rest fields) _

theorem zodParseFields_keys :
    ∀ (shape : List (String × ZodT)) (fields : List (String × JValue)) (kv : String × JValue),
      kv ∈ (zodParseFields shape fields).2 → kv.1 ∈ shape.map Prod.fst := by
  intro shape
  induction shape with
  | nil =>
    intro fields kv h
    simp [zodParseFields] at h
  | cons e rest ih =>
    obtain ⟨k, t⟩ := e
    intro fields kv h
    simp only [List.map_cons]
    rcases zodParseFields_cons_snd k t rest fields with hc | ⟨w, hc⟩
    · rw [hc] at h
      exact List.mem_cons_of_mem _ (ih fields kv h)
    · rw [hc] at h
      rcases List.mem_cons.mp h with he | ht
      · rw [he]; exact List.mem_cons_self _ _
      · exact List.mem_cons_of_mem _ (ih fields kv ht)

theorem zodParse_object_keys (shape : List (String × ZodT)) (v : JValue)
    (out : List (String × JValue)) (h : zodParse (.zobject shape) v = .ok (.obj out)) :
    ∀ kv ∈ out, kv.1 ∈ shape.map Prod.fst := by
  intro kv hkv
  cases v with
  | obj fields =>
    rw [zodParse] at h
    rcases hzf : zodParseFields shape fields with ⟨is, out1⟩
    rw [hzf] at h
    cases is with
    | nil =>
      simp only [Except.ok.injEq, JValue.obj.injEq] at h
      subst h
      have := zodParseFields_keys shape fields kv
      rw [hzf] at this
      exact this hkv
    | cons i is1 => exact Except.noConfusion h
  | null => exact Except.noConfusion h
  | bool b => exact Except.noConfusion h
  | num q => exact Except.noConfusion h
  | str s => exact Except.noConfusion h
  | arr xs => exact Except.noConfusion h

/-- **C6.** For every invoke call whose tool has an `inputSchema`, the
parameters (or `{}` when omitted) are parsed by the validator compiled from
that schema, and on success the upstream `callTool` receives exactly the
validator's parsed output — in particular, for an object schema, no
property that is not declared in the schema. -/
theorem invoke_passes_validated_params :
    ∀ (env : UpEnv) (v : Bool) (rs : List JValue) (c : CallSpec)
      (tools : List MTool) (tool : MTool) (schema validated : JValue),
      env.servers.lookup c.server = some (.ok tools) →
      tools.find? (fun t => t.name == c.tool) = some tool →
      tool.inputSchema = some schema →
      zodParse (jsonSchemaToZod schema) (c.parameters.getD (.obj [])) = .ok validated →
      (invokeSingle env v rs c).2.2 = [⟨c.server, c.tool, some validated⟩] ∧
      (∀ (shape : List (String × ZodT)) (out : List (String × JValue)),
        jsonSchemaToZod schema = .zobject shape → validated = .obj out →
        ∀ kv ∈ out, kv.1 ∈ shape.map Prod.fst) := by
  intro env v rs c tools tool schema validated h1 h2 h3 h4
  constructor
  · rw [invokeSingle_eq]
    show traceOf env c = _
    unfold traceOf classifyCall
    rw [h1]
    simp only [h2, h3, h4]
    unfold classifyAfterCall
    cases env.callResult c.server c.tool (some validated) <;> simp
  · intro shape out hs ho kv hkv
    rw [hs] at h4
    rw [ho] at h4
    exact zodParse_object_keys shape _ out h4 kv hkv

theorem invoke_passes_validated_params_witness :
    (invokeSingle sampleEnv true [] sampleCall).2.2 =
      [⟨"filesystem", "list_directory", some (.obj [("path", .str ".")])⟩] :=
  (invoke_passes_validated_params sampleEnv true [] sampleCall [sampleTool] sampleTool
    (.obj [("type", .str "object"),
      ("properties", .obj [("path", .obj [("type", .str "string")])]),
      ("required", .arr [.str "path"])])
    (.obj [("path", .str ".")]) rfl rfl rfl rfl).1

/-- **C5.** For every eval call, the code is compiled first; if compilation
produces diagnostics the handler returns `isError:true` whose text carries
one `Line L, Column C: message` line per diagnostic (positions one-based),
the code is never executed (the response and state do not depend on the
execution outcome), and `$results` — indeed the whole runtime state — is
left unchanged. -/
theorem eval_validation_failure :
    ∀ (diags : List Diag) (outcome : Except String EvalOut) (st : RState),
      diags ≠ [] → (∀ d ∈ diags, d.hasFile = true) →
      (evalHandler diags outcome st).1.isError = true ∧
      (evalHandler diags outcome st).2 = st ∧
      (∀ outcome2, evalHandler diags outcome2 st = evalHandler diags outcome st) ∧
      (evalHandler diags outcome st).1.text =
        "TypeScript validation failed. Please fix the errors in your code:\n\n" ++
          String.intercalate "\n" (diags.map (fun d =>
            "Line " ++ toString (d.line + 1) ++ ", Column " ++ toString (d.col + 1) ++
              ": " ++ d.msg)) := by
  intro diags outcome st hne hf
  have hisE : diags.isEmpty = false := by
    cases diags with
    | nil => exact absurd rfl hne
    | cons d ds => rfl
  have hv : validationErrors diags =
      some (String.intercalate "\n" (diags.map formatDiag)) := by
    simp [validationErrors, hisE]
  have hmap : diags.map formatDiag = diags.map (fun d =>
      "Line " ++ toString (d.line + 1) ++ ", Column " ++ toString (d.col + 1) ++
        ": " ++ d.msg) := by
    refine List.map_congr_left (fun d hd => ?_)
    simp [formatDiag, hf d hd]
  refine ⟨?_, ?_, ?_, ?_⟩
  · unfold evalHandler; rw [hv]
  · unfold evalHandler; rw [hv]
  · intro outcome2; unfold evalHandler; rw [hv]
  · unfold evalHandler; rw [hv]
    simp [hmap]

theorem eval_validation_failure_witness :
    (evalHandler [⟨true, 0, 4, "Type error"⟩] (.ok ⟨.null, ""⟩) ⟨false, []⟩).1.isError = true ∧
    (evalHandler [⟨true, 0, 4, "Type error"⟩] (.ok ⟨.null, ""⟩) ⟨false, []⟩).2 =
      (⟨false, []⟩ : RState) :=
  ⟨(eval_validation_failure [⟨true, 0, 4, "Type error"⟩] (.ok ⟨.null, ""⟩) ⟨false, []⟩
      (by simp) (by simp)).1,
   (eval_validation_failure [⟨true, 0, 4, "Type error"⟩] (.ok ⟨.null, ""⟩) ⟨false, []⟩
      (by simp) (by simp)).2.1⟩

/-- **C7.** A successful invoke call appends the unwrapped upstream result
to `$results`; unwrapping collapses a single-text content array to the
part's text, maps text parts to their text in a longer array while keeping
the list structure, and stores a non-array result unchanged. -/
theorem unwrapToolResult_spec :
    (∀ (p : JValue) (s : String), isTextItem p = true → jGet p "text" = some (.str s) →
      unwrapToolResult (.arr [p]) = .str s) ∧
    (∀ items : List JValue, 2 ≤ items.length →
      unwrapToolResult (.arr items) = .arr (items.map unwrapItem)) ∧
    (∀ v : JValue, (∀ items, v ≠ .arr items) → unwrapToolResult v = v) ∧
    (∀ (env : UpEnv) (rs : List JValue) (c : CallSpec) (tr : JValue) (u : UpCall),
      classifyCall env c = .okCall tr u →
      (invokeSingle env true rs c).2.1 = rs ++ [unwrapToolResult tr]) := by
  refine ⟨?_, ?_, ?_, ?_⟩
  · intro p s h1 h2
    simp [unwrapToolResult, h1, itemText, h2]
  · intro items h
    cases items with
    | nil => simp at h
    | cons a t =>
      cases t with
      | nil => simp at h
      | cons b t2 => rfl
  · intro v h
    cases v with
    | arr items => exact absurd rfl (h items)
    | null => rfl
    | bool b => rfl
    | num q => rfl
    | str s => rfl
    | obj fs => rfl
  · intro env rs c tr u h
    rw [invokeSingle_eq]
    show rs ++ appendOf env true c = _
    unfold appendOf
    rw [h]
    rfl

theorem unwrapToolResult_spec_witness :
    unwrapToolResult (.arr [.obj [("type", .str "text"), ("text", .str "hi")]]) = .str "hi" ∧
    unwrapToolResult (.arr [.null, .bool true]) = .arr ([.null, .bool true].map unwrapItem) ∧
    unwrapToolResult (.num 3) = .num 3 ∧
    (invokeSingle sampleEnv true [] sampleCall).2.1 =
      [] ++ [unwrapToolResult (.arr [.obj [("type", .str "text"), ("text", .str "a.txt")]])] :=
  ⟨unwrapToolResult_spec.1 _ "hi" (by rfl) (by rfl),
   unwrapToolResult_spec.2.1 [.null, .bool true] (by simp),
   unwrapToolResult_spec.2.2.1 (.num 3) (fun items h => JValue.noConfusion h),
   unwrapToolResult_spec.2.2.2 sampleEnv [] sampleCall _ _ rfl⟩

/-- **C10.** `appendResult` throws `VM context not initialized` whenever the
sandbox has not been lazily constructed; consequently, on a fresh runtime an
invoke call made before any eval/code returns a per-call error record for
each otherwise-successful call — the upstream tool call has already
happened — and `$results` remains empty. -/
theorem appendResult_before_init :
    (∀ (rs : List JValue) (x : JValue),
      appendResult false rs x = .error "VM context not initialized") ∧
    (∀ (env : UpEnv) (rs : List JValue) (c : CallSpec) (tr : JValue) (u : UpCall),
      classifyCall env c = .okCall tr u →
      invokeSingle env false rs c =
        (⟨false, errInvokeText c "VM context not initialized"⟩, rs, [u])) ∧
    (∀ (env : UpEnv) (calls : List CallSpec) (parallel : Bool) (sched : List Nat),
      (handleInvoke env false [] calls parallel sched).2.1 = []) := by
  refine ⟨fun rs x => rfl, ?_, ?_⟩
  · intro env rs c tr u h
    unfold invokeSingle
    rw [h]
    rfl
  · intro env calls parallel sched
    exact handleInvoke_vmFalse env [] calls parallel sched

theorem appendResult_before_init_witness :
    invokeSingle sampleEnv false [] sampleCall =
      (⟨false, errInvokeText sampleCall "VM context not initialized"⟩, [],
        [⟨"filesystem", "list_directory", some (.obj [("path", .str ".")])⟩]) :=
  appendResult_before_init.2.1 sampleEnv [] sampleCall
    (.arr [.obj [("type", .str "text"), ("text", .str "a.txt")]])
    ⟨"filesystem", "list_directory", some (.obj [("path", .str ".")])⟩ rfl

/-- **C4 (counterexample).** The three-step resolution described by the spec
(camelCase candidates, reverse snake scan) resolves `listDirectory` against
a stored `list_directory` (and `list_directory` against a stored
`listDirectory`), but the proxy trap in the code throws `ToolNotFound` for
both: the code performs neither the candidate step nor the reverse snake
scan. -/
theorem toolProxyGet_spec_resolution_cex :
    specToolResolve ["list_directory"] "listDirectory" = some "list_directory" ∧
    specToolResolve ["listDirectory"] "list_directory" = some "listDirectory" ∧
    toolProxyGet "filesystem" ["list_directory"] "listDirectory" =
      .error "Tool 'listDirectory' not found in server 'filesystem'. Available tools: list_directory" ∧
    toolProxyGet "filesystem" ["listDirectory"] "list_directory" =
      .error "Tool 'list_directory' not found in server 'filesystem'. Available tools: listDirectory" := by
  refine ⟨?_, ?_, ?_, ?_⟩ <;> rfl

/-- **C4 (amended).** For every tool proxy and requested attribute name `p`,
resolution is a single step: an exact hit on a stored tool name returns
that tool; a name inherited from `Object.prototype` (such as `toString`)
passes the trap uninterposed and never resolves to a tool; and every other
name — camelCase, kebab, snake or space variants included — fails with a
`ToolNotFound` error that enumerates the full list of available tool
names.  The candidate and reverse-snake steps of the spec do not exist. -/
theorem toolProxyGet_exact_only :
    ∀ (serverName : String) (toolNames : List String) (p : String),
      (p ∈ toolNames → toolProxyGet serverName toolNames p = .ok (some p)) ∧
      (p ∉ toolNames → p ∈ objectPrototypeKeys →
        toolProxyGet serverName toolNames p = .ok none) ∧
      (p ∉ toolNames → p ∉ objectPrototypeKeys →
        toolProxyGet serverName toolNames p =
          .error ("Tool '" ++ p ++ "' not found in server '" ++ serverName ++
            "'. Available tools: " ++ String.intercalate ", " toolNames)) := by
  intro serverName toolNames p
  refine ⟨?_, ?_, ?_⟩
  · intro h
    simp [toolProxyGet, h]
  · intro h1 h2
    simp [toolProxyGet, h1, h2]
  · intro h1 h2
    simp [toolProxyGet, h1, h2]

theorem toolProxyGet_exact_only_witness :
    toolProxyGet "filesystem" ["list_directory"] "list_directory" = .ok (some "list_directory") ∧
    toolProxyGet "filesystem" ["list_directory"] "toString" = .ok none ∧
    toolProxyGet "filesystem" ["list_directory"] "listDirectory" =
      .error ("Tool '" ++ "listDirectory" ++ "' not found in server '" ++ "filesystem" ++
        "'. Available tools: " ++ String.intercalate ", " ["list_directory"]) :=
  ⟨(toolProxyGet_exact_only "filesystem" ["list_directory"] "list_directory").1 (by decide),
   (toolProxyGet_exact_only "filesystem" ["list_directory"] "toString").2.1
     (by decide) (by decide),
   (toolProxyGet_exact_only "filesystem" ["list_directory"] "listDirectory").2.2
     (by decide) (by decide)⟩

/-- **C9.** `getTypeDefinitions` with no server filter is idempotent while
the tool signature is unchanged (the second call returns the same string and
leaves the cache state fixed); a call made when the stored signature differs
from the current one regenerates and re-caches; and every filtered call
recomputes over the filtered tool map and neither reads nor writes the
cache (the state is returned untouched and the result does not depend on
it). -/
theorem getTypeDefinitions_cache :
    (∀ (gen : List (String × List MTool) → String) (tm : List (String × List MTool))
        (st : TMState),
      getTypeDefinitions gen none tm (getTypeDefinitions gen none tm st).2 =
        getTypeDefinitions gen none tm st) ∧
    (∀ (gen : List (String × List MTool) → String) (tm : List (String × List MTool))
        (st : TMState) (c : String),
      st.cachedTypes = some c → c ≠ "" →
      st.lastToolsSignature = some (toolsSignature tm) →
      getTypeDefinitions gen none tm st = (c, st)) ∧
    (∀ (gen : List (String × List MTool) → String) (tm : List (String × List MTool))
        (st : TMState),
      st.lastToolsSignature ≠ some (toolsSignature tm) →
      getTypeDefinitions gen none tm st =
        (gen tm, ⟨some (gen tm), some (toolsSignature tm)⟩)) ∧
    (∀ (gen : List (String × List MTool) → String) (l : List String)
        (tm : List (String × List MTool)) (st : TMState),
      getTypeDefinitions gen (some l) tm st =
        (gen (tm.filter (fun p => l.contains p.1)), st)) := by
  refine ⟨?_, ?_, ?_, ?_⟩
  · intro gen tm st
    unfold getTypeDefinitions
    by_cases h1 : truthyCache st.cachedTypes && (st.lastToolsSignature == some (toolsSignature tm))
    · simp only [Option.isNone_none, Bool.true_and, h1, if_true]
    · simp only [Option.isNone_none, Bool.true_and, h1, if_false]
      by_cases h2 : gen tm = ""
      · simp [truthyCache, h2]
      · simp [truthyCache, h2]
  · intro gen tm st c hc hne hsig
    unfold getTypeDefinitions
    rw [if_pos]
    · rw [hc]; rfl
    · simp [hc, hsig, truthyCache, hne]
  · intro gen tm st h
    unfold getTypeDefinitions
    have hb : (st.lastToolsSignature == some (toolsSignature tm)) = false := by
      simpa using h
    simp [hb]
  · intro gen l tm st
    unfold getTypeDefinitions
    simp

theorem getTypeDefinitions_cache_witness :
    getTypeDefinitions (fun tm => toString tm.length) none [("fs", [⟨"ls", none⟩])]
        ⟨some "stale", some "other"⟩ =
      ((fun (tm : List (String × List MTool)) => toString tm.length) [("fs", [⟨"ls", none⟩])],
        ⟨some ((fun (tm : List (String × List MTool)) => toString tm.length)
            [("fs", [⟨"ls", none⟩])]),
          some (toolsSignature [("fs", [⟨"ls", none⟩])])⟩) :=
  getTypeDefinitions_cache.2.2.1 (fun tm => toString tm.length) [("fs", [⟨"ls", none⟩])]
    ⟨some "stale", some "other"⟩ (by decide)

theorem sliceIdx_nat (n k : Nat) : sliceIdx n (k : Int) = min k n := by
  unfold sliceIdx
  rw [if_neg (by omega)]
  simp

theorem sliceIdx_neg (n k : Nat) (h1 : 1 ≤ k) (h2 : k ≤ n) :
    sliceIdx n (-(k : Int)) = n - k := by
  unfold sliceIdx
  rw [if_pos (by omega)]
  rw [max_eq_left (by omega : (0 : Int) ≤ (n : Int) + -(k : Int))]
  omega

theorem jsSlice2_nat (s : String) (b e : Nat) :
    jsSlice2 s (b : Int) (e : Int) =
      String.mk ((s.toList.take (min e s.toList.length)).drop (min b s.toList.length)) := by
  show String.mk ((s.toList.take (sliceIdx s.toList.length (e : Int))).drop
    (sliceIdx s.toList.length (b : Int))) = _
  rw [sliceIdx_nat, sliceIdx_nat]

theorem jsSlice1_neg (s : String) (k : Nat) (h1 : 1 ≤ k) (h2 : k ≤ s.toList.length) :
    jsSlice1 s (-(k : Int)) = String.mk (s.toList.drop (s.toList.length - k)) := by
  show String.mk ((s.toList.take (sliceIdx s.toList.length (s.toList.length : Int))).drop
    (sliceIdx s.toList.length (-(k : Int)))) = _
  rw [sliceIdx_nat, sliceIdx_neg _ _ h1 h2]
  simp only [Nat.min_self]
  have hta : List.take s.toList.length s.toList = s.toList := List.take_length s.toList
  rw [hta]

/-- **C8 (counterexample).** The claim quantifies over every index `i`, but
for an index whose decimal form has 187 digits the marker alone is 249
characters, `sideLength` is `0`, and JavaScript's `text.slice(-0)` returns
the whole string: the result has 500 characters, far beyond the 250
budget. -/
theorem truncateResult_budget_cex :
    ¬ ((truncateResult (String.mk (List.replicate 251 'a')) (10 ^ 186)).length ≤ 250) := by
  decide

/-- **C8 (amended).** For every rendered result text and every index `i`
whose truncation marker is at most 248 characters long (every index below
`10^186` qualifies): a text of at most 250 characters is returned
unchanged; otherwise the result is the prefix of length
`⌊(250 - m)/2⌋` followed by the marker followed by the suffix of the same
length, where `m` is the marker's length — so the truncated form never
exceeds 250 characters and always preserves the marker. -/
theorem truncateResult_spec :
    ∀ (text : String) (i : Nat),
      (truncationMsg i).length ≤ 248 →
      (text.length ≤ 250 → truncateResult text i = text) ∧
      (250 < text.length →
        truncateResult text i =
          String.mk (text.toList.take ((250 - (truncationMsg i).length) / 2)) ++
            truncationMsg i ++
            String.mk (text.toList.drop
              (text.toList.length - (250 - (truncationMsg i).length) / 2)) ∧
        (truncateResult text i).length =
          (250 - (truncationMsg i).length) / 2 * 2 + (truncationMsg i).length ∧
        (truncateResult text i).length ≤ 250) := by
  intro text i hm
  constructor
  · intro hle
    unfold truncateResult
    rw [if_pos hle]
  · intro hgt
    have hnle : ¬ (text.length ≤ 250) := by omega
    have hn : text.toList.length = text.length := rfl
    have hs1 : 1 ≤ (250 - (truncationMsg i).length) / 2 := by omega
    have hs125 : (250 - (truncationMsg i).length) / 2 ≤ 125 := by omega
    have hsn : (250 - (truncationMsg i).length) / 2 < text.toList.length := by omega
    have hfd : Int.fdiv ((250 : Int) - ((truncationMsg i).length : Int)) 2 =
        (((250 - (truncationMsg i).length) / 2 : Nat) : Int) := by
      have h1 : ((250 : Int) - ((truncationMsg i).length : Int)) =
          ((250 - (truncationMsg i).length : Nat) : Int) := by omega
      rw [h1, Int.fdiv_eq_ediv _ (by omega)]
      exact_mod_cast (Int.ofNat_ediv (250 - (truncationMsg i).length) 2).symm
    have hbody : truncateResult text i =
        jsSlice2 text 0 (Int.fdiv ((250 : Int) - ((truncationMsg i).length : Int)) 2) ++
          truncationMsg i ++
          jsSlice1 text (-(Int.fdiv ((250 : Int) - ((truncationMsg i).length : Int)) 2)) := by
      unfold truncateResult
      rw [if_neg hnle]
      rfl
    rw [hbody, hfd]
    have hz : ((0 : Nat) : Int) = (0 : Int) := rfl
    rw [← hz, jsSlice2_nat, jsSlice1_neg text _ hs1 (by omega)]
    have htake : min ((250 - (truncationMsg i).length) / 2) text.toList.length =
        (250 - (truncationMsg i).length) / 2 := Nat.min_eq_left (Nat.le_of_lt hsn)
    have hdrop0 : min 0 text.toList.length = 0 := by simp
    rw [htake, hdrop0, List.drop_zero]
    refine ⟨rfl, ?_, ?_⟩
    · rw [String.length_append, String.length_append]
      have hl1 : (String.mk (text.toList.take ((250 - (truncationMsg i).length) / 2))).length =
          (250 - (truncationMsg i).length) / 2 := by
        show (text.toList.take ((250 - (truncationMsg i).length) / 2)).length = _
        rw [List.length_take]
        omega
      have hl2 : (String.mk (text.toList.drop
          (text.toList.length - (250 - (truncationMsg i).length) / 2))).length =
          (250 - (truncationMsg i).length) / 2 := by
        show (text.toList.drop
          (text.toList.length - (250 - (truncationMsg i).length) / 2)).length = _
        rw [List.length_drop]
        omega
      rw [hl1, hl2]
      omega
    · rw [String.length_append, String.length_append]
      have hl1 : (String.mk (text.toList.take ((250 - (truncationMsg i).length) / 2))).length =
          (250 - (truncationMsg i).length) / 2 := by
        show (text.toList.take ((250 - (truncationMsg i).length) / 2)).length = _
        rw [List.length_take]
        omega
      have hl2 : (String.mk (text.toList.drop
          (text.toList.length - (250 - (truncationMsg i).length) / 2))).length =
          (250 - (truncationMsg i).length) / 2 := by
        show (text.toList.drop
          (text.toList.length - (250 - (truncationMsg i).length) / 2)).length = _
        rw [List.length_drop]
        omega
      rw [hl1, hl2]
      omega

theorem truncateResult_spec_witness :
    truncateResult (String.mk (List.replicate 251 'a')) 3 =
      String.mk ((String.mk (List.replicate 251 'a')).toList.take
          ((250 - (truncationMsg 3).length) / 2)) ++
        truncationMsg 3 ++
        String.mk ((String.mk (List.replicate 251 'a')).toList.drop
          ((String.mk (List.replicate 251 'a')).toList.length -
            (250 - (truncationMsg 3).length) / 2)) ∧
    (truncateResult (String.mk (List.replicate 251 'a')) 3).length ≤ 250 :=
  ⟨((truncateResult_spec (String.mk (List.replicate 251 'a')) 3 (by decide)).2 (by decide)).1,
   ((truncateResult_spec (String.mk (List.replicate 251 'a')) 3 (by decide)).2 (by decide)).2.2⟩

end Mcpman
